import Mathlib

/-!
Shallow embedding of `src/code/architecture.py`, an entity-component-system
(ECS) registry.

Python dicts are modelled as association lists `List (k × v)` with the
insertion-order semantics of Python dicts: updating an existing key keeps its
position, a new key is appended.  Python sets are modelled as duplicate-free
`List` values built by append-if-absent.  Python exceptions are modelled by
returning the registry state reached so far together with `Option Err`
(Python exceptions propagate but leave the mutated object in place).

The module `architecture.py` never defines a module-level variable named
`world`, yet `Entity.relate`, `Entity.unrelate` and `World.delete_entity`
read the bare name `world`.  In Python this raises
NameError (name not defined) at the moment the name is evaluated.  Those
operations are therefore parameterised by the optional module-level binding
`g : Option World` and the shipped behaviour is the instantiation at
`moduleWorld = none`.
-/

set_option autoImplicit false

/-- Python exception classes raised by the code paths modelled here. -/
inductive Err where
  | nameError (msg : String)
  | keyError
  | typeError (msg : String)
deriving DecidableEq, Repr

/-- Keys of a dict rendered as an association list. -/
def dkeys {α β : Type} (m : List (α × β)) : List α := m.map Prod.fst

/-- Dict lookup: first entry with the given key. -/
def dlookup {α β : Type} [DecidableEq α] (k : α) : List (α × β) → Option β
  | [] => none
  | (k1, v) :: rest => if k = k1 then some v else dlookup k rest

/-- Dict update `m[k] = v`: replace in place, or append a new key. -/
def dinsert {α β : Type} [DecidableEq α] (k : α) (v : β) : List (α × β) → List (α × β)
  | [] => [(k, v)]
  | (k1, v1) :: rest => if k = k1 then (k1, v) :: rest else (k1, v1) :: dinsert k v rest

/-- Dict deletion `del m[k]`: drop the first entry with the given key. -/
def ddelete {α β : Type} [DecidableEq α] (k : α) : List (α × β) → List (α × β)
  | [] => []
  | (k1, v1) :: rest => if k = k1 then rest else (k1, v1) :: ddelete k rest

/-- defaultdict access `m[k]`: return the bucket, creating it with the
default value when the key is absent; also returns the updated table. -/
def dget {α β : Type} [DecidableEq α] (d : β) (k : α) (m : List (α × β)) :
    β × List (α × β) :=
  match dlookup k m with
  | some v => (v, m)
  | none => (d, dinsert k d m)

/-- Python `set.add`: append if absent. -/
def sadd {α : Type} [DecidableEq α] (x : α) (s : List α) : List α :=
  if x ∈ s then s else s ++ [x]

/-- Component key: the Python pair (name, type); the type is rendered by its
name since no modelled operation inspects it beyond equality. -/
abbrev Comp := String × String

/-- Tags are bare strings in every claim; the (string, int) alternative of
the Python union is not exercised and the tag type is only a decidable key. -/
abbrev Tag := String

/-- Component payloads are opaque to every modelled operation (the code only
stores and deletes them; no claim reads a value), rendered by a fixed type. -/
abbrev PyVal := Int

/-- The registry state: all fields of `World.__init__`. -/
structure World where
  entities : List Nat
  components : List (Comp × List (Nat × PyVal))
  tags : List (Tag × List Nat)
  relations : List (String × List (Nat × List Nat))
  eid_comps : List (Nat × List Comp)
  eid_tags : List (Nat × List Tag)
  eid_rels : List (Nat × List (String × Nat))
  next_id : Nat
deriving DecidableEq, Repr

/-- `World.__init__`: every table empty, counter at zero. -/
def World.empty : World :=
  { entities := [], components := [], tags := [], relations := [],
    eid_comps := [], eid_tags := [], eid_rels := [], next_id := 0 }

/-- The module-level binding of the bare name `world` read by
`Entity.relate`, `Entity.unrelate` and `World.delete_entity`.  The module
never assigns it, so it is `none` and evaluating the name raises NameError. -/
def moduleWorld : Option World := none

/-- Message of the NameError raised when the undefined global is read. -/
def worldUndefinedMsg : String := "name world is not defined"

/-- `Entity.tag`: adds a tag unless the entity already has it.  The handle is
the pair of its bound registry `w` and its id `eid`; `self.tags` is
`self.world.eid_tags[self.eid]` (KeyError when the id has no record). -/
def Entity.tag (w : World) (eid : Nat) (t : Tag) : World × Option Err :=
  match dlookup eid w.eid_tags with
  | none => (w, some Err.keyError)
  | some ts =>
    if t ∈ ts then (w, none)
    else
      let w1 := { w with eid_tags := dinsert eid (sadd t ts) w.eid_tags }
      let p := dget [] t w1.tags
      ({ w1 with tags := dinsert t (sadd eid p.1) p.2 }, none)

/-- `Entity.untag`: removes a tag the entity has, pruning the global bucket
when it becomes empty; no-op when the entity does not have the tag. -/
def Entity.untag (w : World) (eid : Nat) (t : Tag) : World × Option Err :=
  match dlookup eid w.eid_tags with
  | none => (w, some Err.keyError)
  | some ts =>
    if t ∈ ts then
      let w1 := { w with eid_tags := dinsert eid (ts.filter (· ≠ t)) w.eid_tags }
      let p := dget [] t w1.tags
      let w2 := { w1 with tags := p.2 }
      if eid ∈ p.1 then
        let b1 := p.1.filter (· ≠ eid)
        let w3 := { w2 with tags := dinsert t b1 w2.tags }
        if b1 = [] then ({ w3 with tags := ddelete t w3.tags }, none)
        else (w3, none)
      else (w2, some Err.keyError)
    else (w, none)

/-- Tail of `Entity.relate` after the old-edge detachment: records the new
current target and inserts the source id into the target bucket. -/
def Entity.relateFinish (w : World) (eid : Nat) (relation : String)
    (other_id : Nat) (bucket : List (Nat × List Nat))
    (myRels : List (String × Nat)) : World × Option Err :=
  let w1 := { w with eid_rels := dinsert eid (dinsert relation other_id myRels) w.eid_rels }
  let bucket1 := if (dlookup other_id bucket).isSome then bucket else dinsert other_id [] bucket
  let srcs := (dlookup other_id bucket1).getD []
  ({ w1 with relations := dinsert relation (dinsert other_id (sadd eid srcs) bucket1) w1.relations }, none)

/-- `Entity.relate`, parameterised by the module-level binding `g` of the
bare name `world` that its first line reads.  With `g = none` the name
lookup raises NameError before anything runs; with `g = some gw` the target
id is validated against `gw` (not against the handle registry `w`) and the
rest of the body runs against `w`. -/
def Entity.relateG (g : Option World) (w : World) (eid : Nat)
    (relation : String) (other_id : Nat) : World × Option Err :=
  match g with
  | none => (w, some (Err.nameError worldUndefinedMsg))
  | some gw =>
    if other_id ∉ gw.entities then
      (w, some (Err.nameError s!"target EID {other_id} does not exist"))
    else
      let p := dget [] relation w.relations
      let w1 := { w with relations := p.2 }
      match dlookup eid w1.eid_rels with
      | none => (w1, some Err.keyError)
      | some myRels =>
        match dlookup relation myRels with
        | some prev =>
          match dlookup prev p.1 with
          | none => (w1, some Err.keyError)
          | some srcs =>
            if eid ∈ srcs then
              let bucket1 := dinsert prev (srcs.filter (· ≠ eid)) p.1
              let w2 := { w1 with relations := dinsert relation bucket1 w1.relations }
              Entity.relateFinish w2 eid relation other_id bucket1 myRels
            else (w1, some Err.keyError)
        | none => Entity.relateFinish w1 eid relation other_id p.1 myRels

/-- `Entity.relate` as shipped: the module global `world` is undefined. -/
def Entity.relate (w : World) (eid : Nat) (relation : String)
    (other_id : Nat) : World × Option Err :=
  Entity.relateG moduleWorld w eid relation other_id

/-- `Entity.unrelate`, parameterised like `Entity.relateG` by the
module-level binding of the bare name `world` read on its first line. -/
def Entity.unrelateG (g : Option World) (w : World) (eid : Nat)
    (relation : String) (other_id : Nat) : World × Option Err :=
  match g with
  | none => (w, some (Err.nameError worldUndefinedMsg))
  | some gw =>
    if other_id ∉ gw.entities then
      (w, some (Err.nameError s!"target EID {other_id} does not exist"))
    else
      let p := dget [] relation w.relations
      let w1 := { w with relations := p.2 }
      match dlookup other_id p.1 with
      | none => (w1, some Err.keyError)
      | some related =>
        match dlookup eid w1.eid_rels with
        | none => (w1, some Err.keyError)
        | some myRels =>
          match dlookup relation myRels with
          | none => (w1, some Err.keyError)
          | some _ =>
            let w2 := { w1 with eid_rels := dinsert eid (ddelete relation myRels) w1.eid_rels }
            if eid ∈ related then
              let related1 := related.filter (· ≠ eid)
              let bucket1 := dinsert other_id related1 p.1
              let w3 := { w2 with relations := dinsert relation bucket1 w2.relations }
              if related1 = [] then
                ({ w3 with relations := dinsert relation (ddelete other_id bucket1) w3.relations }, none)
              else (w3, none)
            else (w2, some Err.keyError)

/-- `Entity.unrelate` as shipped: the module global `world` is undefined. -/
def Entity.unrelate (w : World) (eid : Nat) (relation : String)
    (other_id : Nat) : World × Option Err :=
  Entity.unrelateG moduleWorld w eid relation other_id

/-- `Entity.__setitem__`: records the component key on the entity and stores
the value in the component table. -/
def Entity.setitem (w : World) (eid : Nat) (c : Comp) (v : PyVal) :
    World × Option Err :=
  match dlookup eid w.eid_comps with
  | none => (w, some Err.keyError)
  | some cs =>
    let w1 := { w with eid_comps := dinsert eid (sadd c cs) w.eid_comps }
    let p := dget [] c w1.components
    ({ w1 with components := dinsert c (dinsert eid v p.1) p.2 }, none)

/-- `Entity.__delitem__`: deletes the stored value, then removes the key
from the per-entity component set. -/
def Entity.delitem (w : World) (eid : Nat) (c : Comp) : World × Option Err :=
  let p := dget [] c w.components
  let w1 := { w with components := p.2 }
  match dlookup eid p.1 with
  | none => (w1, some Err.keyError)
  | some _ =>
    let w2 := { w1 with components := dinsert c (ddelete eid p.1) w1.components }
    match dlookup eid w2.eid_comps with
    | none => (w2, some Err.keyError)
    | some cs =>
      if c ∈ cs then
        ({ w2 with eid_comps := dinsert eid (cs.filter (· ≠ c)) w2.eid_comps }, none)
      else (w2, some Err.keyError)

/-- `World.create_entity`: allocates the next id, registers the empty facet
records, and returns the handle id alongside the new state. -/
def World.create_entity (w : World) : World × Nat :=
  let eid := w.next_id
  ({ w with next_id := w.next_id + 1,
            entities := sadd eid w.entities,
            eid_comps := dinsert eid [] w.eid_comps,
            eid_tags := dinsert eid [] w.eid_tags,
            eid_rels := dinsert eid [] w.eid_rels }, eid)

/-- Sequencing of Python statements with exception propagation: the second
step runs only when the first raised nothing; a raised exception keeps the
state reached so far. -/
def pyBind (r : World × Option Err) (f : World → World × Option Err) :
    World × Option Err :=
  match r with
  | (w, none) => f w
  | (w, some e) => (w, some e)

/-- `for x in xs: body` where the body may raise: stop at the first
exception, keeping the state reached so far. -/
def runSteps {kt : Type} (f : World → kt → World × Option Err) (w : World) :
    List kt → World × Option Err
  | [] => (w, none)
  | x :: xs =>
    match f w x with
    | (w1, none) => runSteps f w1 xs
    | (w1, some e) => (w1, some e)

/-- One step of the cascade in `World.delete_entity`: for an incoming source
id `cid`, the code evaluates `Entity(cid, world)` against the module global
`g` (NameError when `g` is undefined, NameError when `cid` is not live in
it) and then calls `child.unrelate(relation, eid)`. -/
def World.cascadeStep (g : Option World) (relation : String) (eid : Nat)
    (w : World) (cid : Nat) : World × Option Err :=
  match g with
  | none => (w, some (Err.nameError worldUndefinedMsg))
  | some gw =>
    if cid ∈ gw.entities then Entity.unrelateG g w cid relation eid
    else (w, some (Err.nameError s!"entity ID {cid} does not exist"))

/-- One step of the outgoing-relation loop in `World.delete_entity`:
`entity.unrelate(rel, entity.relations[rel])` with the target looked up at
call time. -/
def World.unrelateOwnStep (g : Option World) (eid : Nat) (w : World)
    (rel : String) : World × Option Err :=
  match dlookup eid w.eid_rels with
  | none => (w, some Err.keyError)
  | some mr =>
    match dlookup rel mr with
    | none => (w, some Err.keyError)
    | some tgt => Entity.unrelateG g w eid rel tgt

/-- `World.delete_entity`, parameterised by the module-level binding `g` of
the bare name `world` that its cascade loop reads.  The handle construction
`Entity(eid, self)` validates against the registry itself; the cascade
constructs handles against the module global. -/
def World.delete_entityG (g : Option World) (w : World) (eid : Nat) :
    World × Option Err :=
  if eid ∈ w.entities then
    pyBind (match dlookup eid w.eid_comps with
      | none => (w, some Err.keyError)
      | some comps => runSteps (fun w1 c => Entity.delitem w1 eid c) w comps) (fun w =>
    pyBind (match dlookup eid w.eid_tags with
      | none => (w, some Err.keyError)
      | some ts => runSteps (fun w1 t => Entity.untag w1 eid t) w ts) (fun w =>
    pyBind (match dlookup eid w.eid_rels with
      | none => (w, some Err.keyError)
      | some mr => runSteps (World.unrelateOwnStep g eid) w (dkeys mr)) (fun w =>
    let w := { w with eid_comps := ddelete eid w.eid_comps }
    let w := { w with eid_tags := ddelete eid w.eid_tags }
    let w := { w with eid_rels := ddelete eid w.eid_rels }
    pyBind (runSteps (fun w1 relation =>
        let srcs := (dlookup eid ((dlookup relation w1.relations).getD [])).getD []
        runSteps (World.cascadeStep g relation eid) w1 srcs) w (dkeys w.relations))
      (fun w => ({ w with entities := w.entities.filter (· ≠ eid) }, none)))))
  else (w, some (Err.nameError s!"entity ID {eid} does not exist"))

/-- `World.delete_entity` as shipped: the module global `world` read by the
cascade loop is undefined. -/
def World.delete_entity (w : World) (eid : Nat) : World × Option Err :=
  World.delete_entityG moduleWorld w eid

/-- Python set intersection of two entity-id sets. -/
def sinter (a b : List Nat) : List Nat := a.filter (fun x => x ∈ b)

/-- `set.intersection(*sets)` for a non-empty list of sets; the empty case
renders the guarded `if sets else set()` fallback of the per-category
intersections in `World.query`. -/
def intersectAll : List (List Nat) → List Nat
  | [] => []
  | s :: rest => rest.foldl sinter s

/-- Sort key of the three `list.sort(key=len)` calls in `World.query`. -/
def byLen (a b : List Nat) : Prop := a.length ≤ b.length

instance byLen.decidableRel : DecidableRel byLen := fun a b => Nat.decLe a.length b.length

/-- The list comprehension `[set(self.components[comp]) for comp in comps]`:
each defaultdict access may create an empty bucket, threading the table. -/
def compSetsOf (w : World) : List Comp → List (List Nat) × World
  | [] => ([], w)
  | c :: rest =>
    let p := dget [] c w.components
    let q := compSetsOf { w with components := p.2 } rest
    (dkeys p.1 :: q.1, q.2)

/-- The list comprehension `[self.tags[tag] for tag in tags]`. -/
def tagSetsOf (w : World) : List Tag → List (List Nat) × World
  | [] => ([], w)
  | t :: rest =>
    let p := dget [] t w.tags
    let q := tagSetsOf { w with tags := p.2 } rest
    (p.1 :: q.1, q.2)

/-- The comprehension `[self.relations[rel[0]].get(rel[1], set()) for rel in
rels]`: the outer defaultdict access may create an empty bucket, the inner
`.get` does not. -/
def relSetsOf (w : World) : List (String × Nat) → List (List Nat) × World
  | [] => ([], w)
  | r :: rest =>
    let p := dget [] r.1 w.relations
    let q := relSetsOf { w with relations := p.2 } rest
    ((dlookup r.2 p.1).getD [] :: q.1, q.2)

/-- The final `set.intersection(*queried_sets)` of `World.query`: TypeError
when called with no sets at all, the left fold of pairwise intersections
otherwise. -/
def setIntersection (w : World) (sets : List (List Nat)) :
    World × Except Err (List Nat) :=
  match sets with
  | [] => (w, Except.error (Err.typeError "set.intersection needs an argument"))
  | s :: rest => (w, Except.ok (rest.foldl sinter s))

/-- `World.query`: builds the three per-category operand lists, sorts each
by ascending size, intersects within each supplied category, and intersects
the supplied category results; with no category supplied the final
`set.intersection(*[])` raises TypeError. -/
def World.query (w : World) (comps : List Comp) (tags : List Tag)
    (rels : List (String × Nat)) : World × Except Err (List Nat) :=
  let cpair := compSetsOf w comps
  let tpair := tagSetsOf cpair.2 tags
  let rpair := relSetsOf tpair.2 rels
  let comp_set := intersectAll (cpair.1.insertionSort byLen)
  let tag_set := intersectAll (tpair.1.insertionSort byLen)
  let rel_set := intersectAll (rpair.1.insertionSort byLen)
  let queried_sets :=
    (if comps = [] then [] else [comp_set]) ++
    (if tags = [] then [] else [tag_set]) ++
    (if rels = [] then [] else [rel_set])
  setIntersection rpair.2 queried_sets

/-- The mutating public operations of the registry (queries are public too
but are kept separate because they return a result). -/
inductive Op where
  | create
  | tagOp (eid : Nat) (t : Tag)
  | untagOp (eid : Nat) (t : Tag)
  | setitemOp (eid : Nat) (c : Comp) (v : PyVal)
  | delitemOp (eid : Nat) (c : Comp)
  | relateOp (eid : Nat) (r : String) (other : Nat)
  | unrelateOp (eid : Nat) (r : String) (other : Nat)
  | deleteOp (eid : Nat)
deriving DecidableEq, Repr

/-- Apply one mutating public operation; the registry object persists across
raised exceptions, so the reached state is kept either way. -/
def applyOp (w : World) : Op → World
  | Op.create => (World.create_entity w).1
  | Op.tagOp eid t => (Entity.tag w eid t).1
  | Op.untagOp eid t => (Entity.untag w eid t).1
  | Op.setitemOp eid c v => (Entity.setitem w eid c v).1
  | Op.delitemOp eid c => (Entity.delitem w eid c).1
  | Op.relateOp eid r o => (Entity.relate w eid r o).1
  | Op.unrelateOp eid r o => (Entity.unrelate w eid r o).1
  | Op.deleteOp eid => (World.delete_entity w eid).1

/-- Apply a sequence of mutating public operations. -/
def applyOps (w : World) (ops : List Op) : World := ops.foldl applyOp w

/-! ### Dictionary lemmas -/

theorem dlookup_dinsert {α β : Type} [DecidableEq α] (k k1 : α) (v : β)
    (m : List (α × β)) :
    dlookup k1 (dinsert k v m) = if k1 = k then some v else dlookup k1 m := by
  induction m with
  | nil => simp [dinsert, dlookup]
  | cons hd tl ih =>
    obtain ⟨k2, v2⟩ := hd
    by_cases h2 : k = k2
    · subst h2
      by_cases h1 : k1 = k <;> simp [dinsert, dlookup, h1]
    · by_cases h1 : k1 = k2
      · subst h1
        have : ¬ k1 = k := fun he => h2 he.symm
        simp [dinsert, dlookup, h2, this]
      · simp [dinsert, dlookup, h2, h1, ih]

theorem dlookup_ddelete_ne {α β : Type} [DecidableEq α] {k k1 : α}
    (m : List (α × β)) (h : k1 ≠ k) :
    dlookup k1 (ddelete k m) = dlookup k1 m := by
  induction m with
  | nil => simp [ddelete]
  | cons hd tl ih =>
    obtain ⟨k2, v2⟩ := hd
    by_cases h2 : k = k2
    · subst h2
      simp [ddelete, dlookup, h]
    · by_cases h1 : k1 = k2 <;> simp [ddelete, dlookup, h2, h1, ih]

theorem dlookup_none_of_not_mem_dkeys {α β : Type} [DecidableEq α] {k : α}
    {m : List (α × β)} (h : k ∉ dkeys m) : dlookup k m = none := by
  induction m with
  | nil => simp [dlookup]
  | cons hd tl ih =>
    obtain ⟨k2, v2⟩ := hd
    simp only [dkeys, List.map_cons, List.mem_cons] at h
    push_neg at h
    simp [dlookup, h.1, ih (by simpa [dkeys] using h.2)]

theorem dlookup_ddelete_self {α β : Type} [DecidableEq α] {k : α}
    {m : List (α × β)} (h : (dkeys m).Nodup) :
    dlookup k (ddelete k m) = none := by
  induction m with
  | nil => simp [ddelete, dlookup]
  | cons hd tl ih =>
    obtain ⟨k2, v2⟩ := hd
    simp only [dkeys, List.map_cons, List.nodup_cons] at h
    by_cases h2 : k = k2
    · subst h2
      have hdel : ddelete k ((k, v2) :: tl) = tl := by simp [ddelete]
      rw [hdel]
      exact dlookup_none_of_not_mem_dkeys (by simpa [dkeys] using h.1)
    · simp [ddelete, dlookup, h2, ih (h.2)]

theorem dkeys_dinsert {α β : Type} [DecidableEq α] (k : α) (v : β)
    (m : List (α × β)) :
    dkeys (dinsert k v m) =
      if k ∈ dkeys m then dkeys m else dkeys m ++ [k] := by
  induction m with
  | nil => simp [dinsert, dkeys]
  | cons hd tl ih =>
    obtain ⟨k2, v2⟩ := hd
    by_cases h2 : k = k2
    · subst h2
      simp [dinsert, dkeys]
    · have h1 : dinsert k v ((k2, v2) :: tl) = (k2, v2) :: dinsert k v tl := by
        simp [dinsert, h2]
      have h3 : dkeys ((k2, v2) :: dinsert k v tl) = k2 :: dkeys (dinsert k v tl) := rfl
      rw [h1, h3, ih]
      by_cases hm : k ∈ List.map Prod.fst tl <;> simp [dkeys, hm, h2]

theorem dkeys_dinsert_nodup {α β : Type} [DecidableEq α] (k : α) (v : β)
    {m : List (α × β)} (h : (dkeys m).Nodup) :
    (dkeys (dinsert k v m)).Nodup := by
  rw [dkeys_dinsert]
  by_cases hm : k ∈ dkeys m
  · simpa [hm] using h
  · simp [hm, List.nodup_append, h]

theorem dkeys_ddelete_sublist {α β : Type} [DecidableEq α] (k : α)
    (m : List (α × β)) : (dkeys (ddelete k m)).Sublist (dkeys m) := by
  induction m with
  | nil => simp [ddelete]
  | cons hd tl ih =>
    obtain ⟨k2, v2⟩ := hd
    by_cases h2 : k = k2
    · subst h2
      simp only [ddelete, if_pos rfl, dkeys, List.map_cons]
      exact List.sublist_cons_self _ _
    · simp only [ddelete, if_neg h2, dkeys, List.map_cons]
      exact List.Sublist.cons₂ _ ih

theorem dkeys_ddelete_nodup {α β : Type} [DecidableEq α] (k : α)
    {m : List (α × β)} (h : (dkeys m).Nodup) :
    (dkeys (ddelete k m)).Nodup :=
  (dkeys_ddelete_sublist k m).nodup h

theorem dget_fst {α β : Type} [DecidableEq α] (d : β) (k : α)
    (m : List (α × β)) : (dget d k m).1 = (dlookup k m).getD d := by
  cases h : dlookup k m <;> simp [dget, h]

theorem dget_snd_of_some {α β : Type} [DecidableEq α] (d : β) (k : α)
    {m : List (α × β)} {v : β} (h : dlookup k m = some v) :
    (dget d k m).2 = m := by
  simp [dget, h]

theorem dget_snd_of_none {α β : Type} [DecidableEq α] (d : β) (k : α)
    {m : List (α × β)} (h : dlookup k m = none) :
    (dget d k m).2 = dinsert k d m := by
  simp [dget, h]

theorem dget_snd_getD {α β : Type} [DecidableEq α] (d : β) (k k1 : α)
    (m : List (α × β)) :
    (dlookup k1 (dget d k m).2).getD d = (dlookup k1 m).getD d := by
  cases h : dlookup k m with
  | some v => rw [dget_snd_of_some d k h]
  | none =>
    rw [dget_snd_of_none d k h, dlookup_dinsert]
    by_cases h1 : k1 = k <;> simp [h1, h]

theorem dget_snd_nodup {α β : Type} [DecidableEq α] (d : β) (k : α)
    {m : List (α × β)} (h : (dkeys m).Nodup) :
    (dkeys (dget d k m).2).Nodup := by
  cases hl : dlookup k m with
  | some v => simpa [dget, hl] using h
  | none => simp only [dget, hl]; exact dkeys_dinsert_nodup k d h

/-! ### Intersection and query lemmas -/

theorem mem_sinter (x : Nat) (a b : List Nat) :
    x ∈ sinter a b ↔ x ∈ a ∧ x ∈ b := by
  simp [sinter]

theorem mem_foldl_sinter (x : Nat) (l : List (List Nat)) (s : List Nat) :
    x ∈ l.foldl sinter s ↔ x ∈ s ∧ ∀ u ∈ l, x ∈ u := by
  induction l generalizing s with
  | nil => simp
  | cons hd tl ih =>
    rw [List.foldl_cons, ih]
    simp only [mem_sinter, List.mem_cons]
    constructor
    · rintro ⟨⟨hs, hh⟩, ht⟩
      exact ⟨hs, fun u hu => hu.elim (fun he => he ▸ hh) (ht u)⟩
    · rintro ⟨hs, hu⟩
      exact ⟨⟨hs, hu hd (Or.inl rfl)⟩, fun u hu2 => hu u (Or.inr hu2)⟩

theorem mem_intersectAll (x : Nat) {l : List (List Nat)} (h : l ≠ []) :
    x ∈ intersectAll l ↔ ∀ s ∈ l, x ∈ s := by
  cases l with
  | nil => exact absurd rfl h
  | cons hd tl =>
    simp only [intersectAll, mem_foldl_sinter, List.mem_cons]
    constructor
    · rintro ⟨hh, ht⟩ s hs
      exact hs.elim (fun he => he ▸ hh) (ht s)
    · intro hs
      exact ⟨hs hd (Or.inl rfl), fun u hu => hs u (Or.inr hu)⟩

theorem mem_intersectAll_sort (x : Nat) {l : List (List Nat)} (h : l ≠ []) :
    x ∈ intersectAll (l.insertionSort byLen) ↔ ∀ s ∈ l, x ∈ s := by
  have hp := List.perm_insertionSort byLen l
  have hne : l.insertionSort byLen ≠ [] := by
    intro he
    rw [he] at hp
    exact h hp.symm.eq_nil
  rw [mem_intersectAll x hne]
  exact ⟨fun H s hs => H s (hp.mem_iff.mpr hs), fun H s hs => H s (hp.mem_iff.mp hs)⟩

theorem compSetsOf_fst (cs : List Comp) (w : World) :
    (compSetsOf w cs).1 =
      cs.map (fun c => dkeys ((dlookup c w.components).getD [])) := by
  induction cs generalizing w with
  | nil => rfl
  | cons c rest ih =>
    simp only [compSetsOf, List.map_cons, dget_fst]
    congr 1
    rw [ih]
    apply List.map_congr_left
    intro c2 _
    congr 1
    exact dget_snd_getD [] c c2 w.components

theorem compSetsOf_snd_tags (cs : List Comp) (w : World) :
    ((compSetsOf w cs).2).tags = w.tags := by
  induction cs generalizing w with
  | nil => rfl
  | cons c rest ih => simp only [compSetsOf]; rw [ih]

theorem compSetsOf_snd_relations (cs : List Comp) (w : World) :
    ((compSetsOf w cs).2).relations = w.relations := by
  induction cs generalizing w with
  | nil => rfl
  | cons c rest ih => simp only [compSetsOf]; rw [ih]

theorem tagSetsOf_fst (ts : List Tag) (w : World) :
    (tagSetsOf w ts).1 = ts.map (fun t => (dlookup t w.tags).getD []) := by
  induction ts generalizing w with
  | nil => rfl
  | cons t rest ih =>
    simp only [tagSetsOf, List.map_cons, dget_fst]
    congr 1
    rw [ih]
    apply List.map_congr_left
    intro t2 _
    exact dget_snd_getD [] t t2 w.tags

theorem tagSetsOf_snd_relations (ts : List Tag) (w : World) :
    ((tagSetsOf w ts).2).relations = w.relations := by
  induction ts generalizing w with
  | nil => rfl
  | cons t rest ih => simp only [tagSetsOf]; rw [ih]

theorem relSetsOf_fst (rs : List (String × Nat)) (w : World) :
    (relSetsOf w rs).1 =
      rs.map (fun r => (dlookup r.2 ((dlookup r.1 w.relations).getD [])).getD []) := by
  induction rs generalizing w with
  | nil => rfl
  | cons r rest ih =>
    simp only [relSetsOf, List.map_cons, dget_fst]
    congr 1
    rw [ih]
    apply List.map_congr_left
    intro r2 _
    congr 2
    exact dget_snd_getD [] r.1 r2.1 w.relations

theorem mem_queryCompSet (w : World) (comps : List Comp) (h : comps ≠ [])
    (x : Nat) :
    x ∈ intersectAll (((compSetsOf w comps).1).insertionSort byLen) ↔
      ∀ c ∈ comps, x ∈ dkeys ((dlookup c w.components).getD []) := by
  have hm : (compSetsOf w comps).1 ≠ [] := by
    rw [compSetsOf_fst]; simpa using h
  rw [mem_intersectAll_sort x hm, compSetsOf_fst]
  constructor
  · intro H c hc
    exact H _ (List.mem_map_of_mem _ hc)
  · intro H s hs
    obtain ⟨c, hc, rfl⟩ := List.mem_map.mp hs
    exact H c hc

theorem mem_queryTagSet (w : World) (tags : List Tag) (h : tags ≠ [])
    (x : Nat) :
    x ∈ intersectAll (((tagSetsOf w tags).1).insertionSort byLen) ↔
      ∀ t ∈ tags, x ∈ (dlookup t w.tags).getD [] := by
  have hm : (tagSetsOf w tags).1 ≠ [] := by
    rw [tagSetsOf_fst]; simpa using h
  rw [mem_intersectAll_sort x hm, tagSetsOf_fst]
  constructor
  · intro H t ht
    exact H _ (List.mem_map_of_mem _ ht)
  · intro H s hs
    obtain ⟨t, ht, rfl⟩ := List.mem_map.mp hs
    exact H t ht

theorem mem_queryRelSet (w : World) (rels : List (String × Nat))
    (h : rels ≠ []) (x : Nat) :
    x ∈ intersectAll (((relSetsOf w rels).1).insertionSort byLen) ↔
      ∀ r ∈ rels, x ∈ (dlookup r.2 ((dlookup r.1 w.relations).getD [])).getD [] := by
  have hm : (relSetsOf w rels).1 ≠ [] := by
    rw [relSetsOf_fst]; simpa using h
  rw [mem_intersectAll_sort x hm, relSetsOf_fst]
  constructor
  · intro H r hr
    exact H _ (List.mem_map_of_mem _ hr)
  · intro H s hs
    obtain ⟨r, hr, rfl⟩ := List.mem_map.mp hs
    exact H r hr
theorem query_snd (w : World) (comps : List Comp) (tags : List Tag)
    (rels : List (String × Nat)) :
    w.query comps tags rels =
      setIntersection (relSetsOf (tagSetsOf (compSetsOf w comps).2 tags).2 rels).2
        ((if comps = [] then [] else
            [intersectAll (((compSetsOf w comps).1).insertionSort byLen)]) ++
         (if tags = [] then [] else
            [intersectAll (((tagSetsOf (compSetsOf w comps).2 tags).1).insertionSort byLen)]) ++
         (if rels = [] then [] else
            [intersectAll (((relSetsOf (tagSetsOf (compSetsOf w comps).2 tags).2 rels).1).insertionSort byLen)])) := rfl
theorem setIntersection_mem (w5 : World) (c t r : Prop) [Decidable c]
    [Decidable t] [Decidable r] (A B C : List Nat) (h : ¬c ∨ ¬t ∨ ¬r) :
    ∃ S, (setIntersection w5
        ((if c then [] else [A]) ++ (if t then [] else [B]) ++
         (if r then [] else [C]))).2 = Except.ok S ∧
      ∀ x, x ∈ S ↔ ((¬c → x ∈ A) ∧ (¬t → x ∈ B) ∧ (¬r → x ∈ C)) := by
  by_cases hc : c <;> by_cases ht : t <;> by_cases hr : r
  · rcases h with h | h | h <;> contradiction
  · simp only [if_pos hc, if_pos ht, if_neg hr, List.nil_append, setIntersection]
    refine ⟨_, rfl, fun x => ?_⟩
    rw [List.foldl_nil]
    tauto
  · simp only [if_pos hc, if_neg ht, if_pos hr, List.nil_append, List.append_nil,
      setIntersection]
    refine ⟨_, rfl, fun x => ?_⟩
    rw [List.foldl_nil]
    tauto
  · simp only [if_pos hc, if_neg ht, if_neg hr, List.nil_append, List.singleton_append,
      setIntersection]
    refine ⟨_, rfl, fun x => ?_⟩
    rw [List.foldl_cons, List.foldl_nil, mem_sinter]
    tauto
  · simp only [if_neg hc, if_pos ht, if_pos hr, List.append_nil, setIntersection]
    refine ⟨_, rfl, fun x => ?_⟩
    rw [List.foldl_nil]
    tauto
  · simp only [if_neg hc, if_pos ht, if_neg hr, List.nil_append, List.singleton_append,
      setIntersection]
    refine ⟨_, rfl, fun x => ?_⟩
    rw [List.foldl_cons, List.foldl_nil, mem_sinter]
    tauto
  · simp only [if_neg hc, if_neg ht, if_pos hr, List.append_nil, List.singleton_append,
      setIntersection]
    refine ⟨_, rfl, fun x => ?_⟩
    rw [List.foldl_cons, List.foldl_nil, mem_sinter]
    tauto
  · simp only [if_neg hc, if_neg ht, if_neg hr, List.singleton_append, List.cons_append,
      List.nil_append, setIntersection]
    refine ⟨_, rfl, fun x => ?_⟩
    rw [List.foldl_cons, List.foldl_cons, List.foldl_nil, mem_sinter, mem_sinter]
    tauto

/-- C1: for every registry state, `World.query` called with at least one
criterion returns (without exception) exactly the ids that hold every
requested component key, every requested tag, and appear in the source set
of `relations[name][target]` (empty when absent) for every requested
relation pair — conjunctive within and across the three categories. -/
theorem C1_query_conjunction (w : World) (comps : List Comp) (tags : List Tag)
    (rels : List (String × Nat))
    (h : comps ≠ [] ∨ tags ≠ [] ∨ rels ≠ []) :
    ∃ S, (w.query comps tags rels).2 = Except.ok S ∧
      ∀ x, x ∈ S ↔
        ((∀ c ∈ comps, x ∈ dkeys ((dlookup c w.components).getD [])) ∧
         (∀ t ∈ tags, x ∈ (dlookup t w.tags).getD []) ∧
         (∀ r ∈ rels, x ∈ (dlookup r.2 ((dlookup r.1 w.relations).getD [])).getD [])) := by
  rw [query_snd]
  obtain ⟨S, hS, hmem⟩ :=
    setIntersection_mem (relSetsOf (tagSetsOf (compSetsOf w comps).2 tags).2 rels).2
      (comps = []) (tags = []) (rels = [])
      (intersectAll (((compSetsOf w comps).1).insertionSort byLen))
      (intersectAll (((tagSetsOf (compSetsOf w comps).2 tags).1).insertionSort byLen))
      (intersectAll (((relSetsOf (tagSetsOf (compSetsOf w comps).2 tags).2 rels).1).insertionSort byLen))
      h
  refine ⟨S, hS, fun x => ?_⟩
  rw [hmem x]
  have hA : (¬comps = [] →
      x ∈ intersectAll (((compSetsOf w comps).1).insertionSort byLen)) ↔
      (∀ c ∈ comps, x ∈ dkeys ((dlookup c w.components).getD [])) := by
    by_cases hcc : comps = []
    · subst hcc; simp
    · exact ⟨fun hh => (mem_queryCompSet w comps hcc x).mp (hh hcc),
        fun hh _ => (mem_queryCompSet w comps hcc x).mpr hh⟩
  have hB : (¬tags = [] →
      x ∈ intersectAll (((tagSetsOf (compSetsOf w comps).2 tags).1).insertionSort byLen)) ↔
      (∀ t ∈ tags, x ∈ (dlookup t w.tags).getD []) := by
    by_cases htt : tags = []
    · subst htt; simp
    · have hq := mem_queryTagSet (compSetsOf w comps).2 tags htt x
      rw [compSetsOf_snd_tags] at hq
      exact ⟨fun hh => hq.mp (hh htt), fun hh _ => hq.mpr hh⟩
  have hC : (¬rels = [] →
      x ∈ intersectAll (((relSetsOf (tagSetsOf (compSetsOf w comps).2 tags).2 rels).1).insertionSort byLen)) ↔
      (∀ r ∈ rels, x ∈ (dlookup r.2 ((dlookup r.1 w.relations).getD [])).getD []) := by
    by_cases hrr : rels = []
    · subst hrr; simp
    · have hq := mem_queryRelSet (tagSetsOf (compSetsOf w comps).2 tags).2 rels hrr x
      rw [tagSetsOf_snd_relations, compSetsOf_snd_relations] at hq
      exact ⟨fun hh => hq.mp (hh hrr), fun hh _ => hq.mpr hh⟩
  rw [hA, hB, hC]

/-- C2: the code raises TypeError on a query with no criteria at all: with
all three argument lists empty, `queried_sets` is empty and the final
`set.intersection(*queried_sets)` is called with no arguments.  The claim
(and the spec contract) say the result is the empty set instead. -/
theorem C2_degenerate_query_raises_typeerror (w : World) :
    (w.query [] [] []).2 =
      Except.error (Err.typeError "set.intersection needs an argument") := by
  rw [query_snd]
  simp [setIntersection]

/-- A registry with two live entities 0 and 1, built through the public
constructor. -/
def twoEntityWorld : World := ((World.empty.create_entity).1.create_entity).1

/-- A registry with three live entities 0, 1 and 2. -/
def threeEntityWorld : World :=
  (((World.empty.create_entity).1.create_entity).1.create_entity).1

/-- A registry in which entity 0 currently relates to entity 1 under the
relation name `likes` (both directions of the relation index populated). -/
def w4 : World :=
  { entities := [0, 1], components := [], tags := [],
    relations := [("likes", [(1, [0])])],
    eid_comps := [(0, []), (1, [])], eid_tags := [(0, []), (1, [])],
    eid_rels := [(0, [("likes", 1)]), (1, [])], next_id := 2 }

/-- C3: `relate` and `unrelate` never validate the target id against the
handle registry: they read the undefined module global `world`, so every
call raises NameError — also on a handle whose own registry does hold the
target as a live entity (entity 1 below is live in the handle registry). -/
theorem C3_target_check_reads_undefined_global :
    (∀ (w : World) (eid : Nat) (r : String) (o : Nat),
        Entity.relate w eid r o = (w, some (Err.nameError worldUndefinedMsg)) ∧
        Entity.unrelate w eid r o = (w, some (Err.nameError worldUndefinedMsg))) ∧
    1 ∈ twoEntityWorld.entities ∧
    Entity.relate twoEntityWorld 0 "likes" 1 =
      (twoEntityWorld, some (Err.nameError worldUndefinedMsg)) :=
  ⟨fun _ _ _ _ => ⟨rfl, rfl⟩, by decide, rfl⟩

/-- C4: deleting the target of a live relation edge does not succeed: the
cascade loop evaluates `Entity(cid, world)` against the undefined module
global `world` and raises NameError, leaving entity 1 still in the live set,
the `likes` edge still in the relation table, and entity 0 still holding a
current `likes` target — nothing of the claimed cascade happens. -/
theorem C4_cascade_delete_raises_nameerror :
    (World.delete_entity w4 1).2 = some (Err.nameError worldUndefinedMsg) ∧
    1 ∈ (World.delete_entity w4 1).1.entities ∧
    dlookup "likes" (World.delete_entity w4 1).1.relations = some [(1, [0])] ∧
    dlookup "likes" ((dlookup 0 (World.delete_entity w4 1).1.eid_rels).getD []) =
      some 1 := by
  refine ⟨by decide, by decide, by decide, by decide⟩

/-- C5: relation exclusivity never gets a chance to hold: the first
`relate(e, "parent", a)` already raises NameError (undefined module global
`world`) and leaves the registry unchanged, so after the claimed sequence
the entity has no current `parent` target at all, rather than target b. -/
theorem C5_relate_raises_before_exclusivity :
    Entity.relate threeEntityWorld 0 "parent" 1 =
      (threeEntityWorld, some (Err.nameError worldUndefinedMsg)) ∧
    Entity.relate threeEntityWorld 0 "parent" 2 =
      (threeEntityWorld, some (Err.nameError worldUndefinedMsg)) ∧
    dlookup "parent" ((dlookup 0 threeEntityWorld.eid_rels).getD []) = none :=
  ⟨rfl, rfl, by decide⟩

/-- C6: `unrelate` raises NameError (undefined module global `world`) even
on a perfectly valid call: below, target 1 is live and is exactly the
current `likes` target of entity 0, yet the edge is not removed and the
claimed success behaviour never occurs. -/
theorem C6_unrelate_raises_on_valid_edge :
    Entity.unrelate w4 0 "likes" 1 = (w4, some (Err.nameError worldUndefinedMsg)) ∧
    1 ∈ w4.entities ∧
    dlookup "likes" ((dlookup 0 w4.eid_rels).getD []) = some 1 :=
  ⟨rfl, by decide, by decide⟩

/-- C7: deleting an id that is not in the live set fails with the
`does not exist` NameError from the handle construction `Entity(eid, self)`
before any table is touched: the state is returned exactly unchanged. -/
theorem C7_delete_missing_not_found (w : World) (eid : Nat)
    (h : eid ∉ w.entities) :
    World.delete_entity w eid =
      (w, some (Err.nameError s!"entity ID {eid} does not exist")) := by
  simp [World.delete_entity, World.delete_entityG, h]

theorem C7_delete_missing_not_found_witness :
    5 ∉ World.empty.entities ∧
    World.delete_entity World.empty 5 =
      (World.empty, some (Err.nameError "entity ID 5 does not exist")) :=
  ⟨by decide, C7_delete_missing_not_found World.empty 5 (by decide)⟩

/-- C8: tagging an already-held tag is a no-op on both tables; untagging an
absent tag is a no-op; untagging a held tag removes it from the per-entity
set and from the global bucket exactly once, deleting the bucket key when it
becomes empty, and touches no other key of either table. -/
theorem C8_tag_idempotent_untag_prunes (w : World) (eid : Nat) (t : Tag)
    (ts : List Tag) (_hlive : eid ∈ w.entities)
    (hts : dlookup eid w.eid_tags = some ts)
    (hnodup : (dkeys w.tags).Nodup) :
    (t ∈ ts → Entity.tag w eid t = (w, none)) ∧
    (t ∉ ts → Entity.untag w eid t = (w, none)) ∧
    (∀ b, t ∈ ts → dlookup t w.tags = some b → eid ∈ b →
      ∃ w2, Entity.untag w eid t = (w2, none) ∧
        dlookup eid w2.eid_tags = some (ts.filter (· ≠ t)) ∧
        dlookup t w2.tags =
          (if b.filter (· ≠ eid) = [] then none else some (b.filter (· ≠ eid))) ∧
        (∀ t2, t2 ≠ t → dlookup t2 w2.tags = dlookup t2 w.tags) ∧
        (∀ e2, e2 ≠ eid → dlookup e2 w2.eid_tags = dlookup e2 w.eid_tags)) := by
  refine ⟨fun h => by simp [Entity.tag, hts, h], fun h => by simp [Entity.untag, hts, h], ?_⟩
  intro b h hb hm
  by_cases hb1 : b.filter (· ≠ eid) = []
  · have hb1x : List.filter (fun x => !decide (x = eid)) b = [] := by
      simpa using hb1
    have hu : Entity.untag w eid t =
        ({ w with eid_tags := dinsert eid (ts.filter (· ≠ t)) w.eid_tags,
                  tags := ddelete t (dinsert t (b.filter (· ≠ eid)) w.tags) }, none) := by
      simp [Entity.untag, hts, h, dget, hb, hm, hb1, hb1x]
    refine ⟨_, hu, ?_, ?_, ?_, ?_⟩
    · rw [dlookup_dinsert]; simp
    · rw [dlookup_ddelete_self (dkeys_dinsert_nodup t _ hnodup), if_pos hb1]
    · intro t2 h2
      rw [dlookup_ddelete_ne _ h2, dlookup_dinsert, if_neg h2]
    · intro e2 h2
      rw [dlookup_dinsert, if_neg h2]
  · have hb1x : ¬List.filter (fun x => !decide (x = eid)) b = [] := by
      simpa using hb1
    have hu : Entity.untag w eid t =
        ({ w with eid_tags := dinsert eid (ts.filter (· ≠ t)) w.eid_tags,
                  tags := dinsert t (b.filter (· ≠ eid)) w.tags }, none) := by
      simp [Entity.untag, hts, h, dget, hb, hm, hb1, hb1x]
    refine ⟨_, hu, ?_, ?_, ?_, ?_⟩
    · rw [dlookup_dinsert]; simp
    · rw [dlookup_dinsert, if_pos rfl, if_neg hb1]
    · intro t2 h2
      rw [dlookup_dinsert, if_neg h2]
    · intro e2 h2
      rw [dlookup_dinsert, if_neg h2]

/-- A registry with two live entities where entity 0 holds tags `a` and `b`
and entity 1 holds tag `b`; the global buckets mirror that. -/
def w8 : World :=
  { entities := [0, 1], components := [], tags := [("a", [0]), ("b", [0, 1])],
    relations := [], eid_comps := [(0, []), (1, [])],
    eid_tags := [(0, ["a", "b"]), (1, ["b"])], eid_rels := [(0, []), (1, [])],
    next_id := 2 }

theorem C8_tag_idempotent_untag_prunes_witness :
    Entity.tag w8 0 "a" = (w8, none) ∧ Entity.untag w8 0 "c" = (w8, none) :=
  ⟨(C8_tag_idempotent_untag_prunes w8 0 "a" ["a", "b"] (by decide) (by decide)
      (by decide)).1 (by decide),
   (C8_tag_idempotent_untag_prunes w8 0 "c" ["a", "b"] (by decide) (by decide)
      (by decide)).2.1 (by decide)⟩

/-! ### Preservation machinery for loops and exception sequencing -/

theorem runSteps_fst_pres {kt : Type} (P : World → Prop)
    (f : World → kt → World × Option Err)
    (hf : ∀ w x, P w → P (f w x).1) :
    ∀ (l : List kt) (w : World), P w → P (runSteps f w l).1 := by
  intro l
  induction l with
  | nil => intro w hw; exact hw
  | cons x xs ih =>
    intro w hw
    have hstep := hf w x hw
    rcases he : f w x with ⟨w1, e⟩
    rw [he] at hstep
    cases e
    · simpa [runSteps, he] using ih w1 hstep
    · simpa [runSteps, he] using hstep

theorem pyBind_fst_pres (P : World → Prop) (r : World × Option Err)
    (f : World → World × Option Err) (hr : P r.1)
    (hf : ∀ w, P w → P (f w).1) : P (pyBind r f).1 := by
  rcases r with ⟨w, e⟩
  cases e
  · simpa [pyBind] using hf w hr
  · simpa [pyBind] using hr

/-- All branches of `World.delete_entityG` preserve any property that each
of its primitive mutation steps preserves. -/
theorem delete_entityG_pres (g : Option World) (w : World) (eid : Nat)
    (P : World → Prop) (hP : P w)
    (hdelitem : ∀ (w1 : World) (c : Comp), P w1 → P (Entity.delitem w1 eid c).1)
    (huntag : ∀ (w1 : World) (t : Tag), P w1 → P (Entity.untag w1 eid t).1)
    (hunrel : ∀ (w1 : World) (e2 : Nat) (r : String) (o : Nat), P w1 →
      P (Entity.unrelateG g w1 e2 r o).1)
    (hddel : ∀ w1 : World, P w1 →
      P { w1 with eid_comps := ddelete eid w1.eid_comps,
                  eid_tags := ddelete eid w1.eid_tags,
                  eid_rels := ddelete eid w1.eid_rels })
    (hfilter : ∀ w1 : World, P w1 →
      P { w1 with entities := w1.entities.filter (· ≠ eid) }) :
    P (World.delete_entityG g w eid).1 := by
  unfold World.delete_entityG
  by_cases hin : eid ∈ w.entities
  · rw [if_pos hin]
    apply pyBind_fst_pres
    · cases dlookup eid w.eid_comps
      · exact hP
      · exact runSteps_fst_pres P _ (fun w1 c hw => hdelitem w1 c hw) _ w hP
    · intro w2 hw2
      apply pyBind_fst_pres
      · cases dlookup eid w2.eid_tags
        · exact hw2
        · exact runSteps_fst_pres P _ (fun w1 t hw => huntag w1 t hw) _ w2 hw2
      · intro w3 hw3
        apply pyBind_fst_pres
        · cases dlookup eid w3.eid_rels
          · exact hw3
          · refine runSteps_fst_pres P _ ?_ _ w3 hw3
            intro w1 r hw
            unfold World.unrelateOwnStep
            cases dlookup eid w1.eid_rels with
            | none => exact hw
            | some mr =>
              dsimp only
              cases dlookup r mr with
              | none => exact hw
              | some tgt => exact hunrel w1 eid r tgt hw
        · intro w4 hw4
          apply pyBind_fst_pres
          · refine runSteps_fst_pres P _ ?_ _ _ (hddel w4 hw4)
            intro w1 r hw
            refine runSteps_fst_pres P _ ?_ _ w1 hw
            intro w5 cid hw5
            unfold World.cascadeStep
            cases g with
            | none => exact hw5
            | some gw =>
              dsimp only
              by_cases hc : cid ∈ gw.entities
              · rw [if_pos hc]
                exact hunrel w5 cid r eid hw5
              · rw [if_neg hc]
                exact hw5
          · intro w5 hw5
            exact hfilter w5 hw5
  · rw [if_neg hin]
    exact hP

/-! ### next_id preservation -/

theorem tag_next_id (w : World) (eid : Nat) (t : Tag) :
    (Entity.tag w eid t).1.next_id = w.next_id := by
  unfold Entity.tag
  simp only []
  repeat' split
  all_goals rfl

theorem untag_next_id (w : World) (eid : Nat) (t : Tag) :
    (Entity.untag w eid t).1.next_id = w.next_id := by
  unfold Entity.untag
  simp only []
  repeat' split
  all_goals rfl

theorem delitem_next_id (w : World) (eid : Nat) (c : Comp) :
    (Entity.delitem w eid c).1.next_id = w.next_id := by
  unfold Entity.delitem
  simp only []
  repeat' split
  all_goals rfl

theorem setitem_next_id (w : World) (eid : Nat) (c : Comp) (v : PyVal) :
    (Entity.setitem w eid c v).1.next_id = w.next_id := by
  unfold Entity.setitem
  simp only []
  repeat' split
  all_goals rfl

theorem unrelateG_next_id (g : Option World) (w : World) (eid : Nat)
    (r : String) (o : Nat) : (Entity.unrelateG g w eid r o).1.next_id = w.next_id := by
  unfold Entity.unrelateG
  simp only []
  repeat' split
  all_goals rfl

theorem relateG_next_id (g : Option World) (w : World) (eid : Nat)
    (r : String) (o : Nat) : (Entity.relateG g w eid r o).1.next_id = w.next_id := by
  unfold Entity.relateG Entity.relateFinish
  simp only []
  repeat' split
  all_goals rfl

theorem delete_entity_next_id (w : World) (eid : Nat) :
    (World.delete_entity w eid).1.next_id = w.next_id := by
  unfold World.delete_entity
  exact delete_entityG_pres moduleWorld w eid (fun w2 => w2.next_id = w.next_id) rfl
    (fun w1 c hw => by
      show (Entity.delitem w1 eid c).1.next_id = w.next_id
      rw [delitem_next_id]; exact hw)
    (fun w1 t hw => by
      show (Entity.untag w1 eid t).1.next_id = w.next_id
      rw [untag_next_id]; exact hw)
    (fun w1 e2 r o hw => by
      show (Entity.unrelateG moduleWorld w1 e2 r o).1.next_id = w.next_id
      rw [unrelateG_next_id]; exact hw)
    (fun w1 hw => hw)
    (fun w1 hw => hw)

/-- Iterated `create_entity` starting from a given registry. -/
def createN (w : World) : Nat → World
  | 0 => w
  | n + 1 => ((createN w n).create_entity).1

theorem createN_next_id (n : Nat) : (createN World.empty n).next_id = n := by
  induction n with
  | zero => rfl
  | succ n ih =>
    show ((createN World.empty n).create_entity).1.next_id = n + 1
    rw [show ∀ w : World, ((w.create_entity).1).next_id = w.next_id + 1 from fun _ => rfl, ih]

/-- C10: on a fresh registry ids are handed out consecutively from 0: after
n creations the next handle id is n, each creation bumps the counter by
exactly one, every creation returns the current counter, and deletion
(successful, failed, or partial) never changes the counter. -/
theorem C10_consecutive_ids_from_zero :
    (∀ n : Nat, ((createN World.empty n).create_entity).2 = n) ∧
    (∀ w : World, (w.create_entity).2 = w.next_id) ∧
    (∀ w : World, ((w.create_entity).1).next_id = w.next_id + 1) ∧
    (∀ (w : World) (eid : Nat), ((World.delete_entity w eid).1).next_id = w.next_id) := by
  refine ⟨fun n => ?_, fun w => rfl, fun w => rfl, fun w eid => delete_entity_next_id w eid⟩
  show (createN World.empty n).next_id = n
  exact createN_next_id n

/-! ### The tag-table invariant (C9) -/

/-- Well-formedness of the two tag tables as Python dict/set images: no
duplicate dict keys, no empty tag bucket, and every per-entity tag is
mirrored in the global bucket. -/
structure TagWF (w : World) : Prop where
  nodupTags : (dkeys w.tags).Nodup
  nodupEidTags : (dkeys w.eid_tags).Nodup
  nonempty : ∀ (t : Tag) (b : List Nat), dlookup t w.tags = some b → b ≠ []
  consistent : ∀ (eid : Nat) (ts : List Tag), dlookup eid w.eid_tags = some ts →
    ∀ t ∈ ts, ∃ b, dlookup t w.tags = some b ∧ eid ∈ b

theorem TagWF_congr {w1 w2 : World} (h1 : w2.tags = w1.tags)
    (h2 : w2.eid_tags = w1.eid_tags) (h : TagWF w1) : TagWF w2 := by
  refine ⟨?_, ?_, ?_, ?_⟩
  · rw [h1]; exact h.nodupTags
  · rw [h2]; exact h.nodupEidTags
  · rw [h1]; exact h.nonempty
  · rw [h1, h2]; exact h.consistent

theorem mem_sadd {α : Type} [DecidableEq α] (x y : α) (s : List α) :
    x ∈ sadd y s ↔ x ∈ s ∨ x = y := by
  unfold sadd
  by_cases h : y ∈ s
  · rw [if_pos h]
    exact ⟨Or.inl, fun hc => hc.elim id (fun he => he ▸ h)⟩
  · rw [if_neg h]
    simp

theorem sadd_ne_nil {α : Type} [DecidableEq α] (x : α) (s : List α) :
    sadd x s ≠ [] := by
  unfold sadd
  by_cases h : x ∈ s
  · rw [if_pos h]
    intro he
    rw [he] at h
    exact absurd h (List.not_mem_nil x)
  · rw [if_neg h]
    simp

theorem dlookup_dget_snd_ne {α β : Type} [DecidableEq α] (d : β) {k k2 : α}
    (m : List (α × β)) (h : k2 ≠ k) :
    dlookup k2 (dget d k m).2 = dlookup k2 m := by
  cases hl : dlookup k m with
  | some v => rw [dget_snd_of_some d k hl]
  | none => rw [dget_snd_of_none d k hl, dlookup_dinsert, if_neg h]

theorem setitem_tags (w : World) (eid : Nat) (c : Comp) (v : PyVal) :
    (Entity.setitem w eid c v).1.tags = w.tags := by
  unfold Entity.setitem
  simp only []
  repeat' split
  all_goals rfl

theorem setitem_eid_tags (w : World) (eid : Nat) (c : Comp) (v : PyVal) :
    (Entity.setitem w eid c v).1.eid_tags = w.eid_tags := by
  unfold Entity.setitem
  simp only []
  repeat' split
  all_goals rfl

theorem delitem_tags (w : World) (eid : Nat) (c : Comp) :
    (Entity.delitem w eid c).1.tags = w.tags := by
  unfold Entity.delitem
  simp only []
  repeat' split
  all_goals rfl

theorem delitem_eid_tags (w : World) (eid : Nat) (c : Comp) :
    (Entity.delitem w eid c).1.eid_tags = w.eid_tags := by
  unfold Entity.delitem
  simp only []
  repeat' split
  all_goals rfl

theorem relateG_tags (g : Option World) (w : World) (eid : Nat) (r : String)
    (o : Nat) : (Entity.relateG g w eid r o).1.tags = w.tags := by
  unfold Entity.relateG Entity.relateFinish
  simp only []
  repeat' split
  all_goals rfl

theorem relateG_eid_tags (g : Option World) (w : World) (eid : Nat)
    (r : String) (o : Nat) : (Entity.relateG g w eid r o).1.eid_tags = w.eid_tags := by
  unfold Entity.relateG Entity.relateFinish
  simp only []
  repeat' split
  all_goals rfl

theorem unrelateG_tags (g : Option World) (w : World) (eid : Nat) (r : String)
    (o : Nat) : (Entity.unrelateG g w eid r o).1.tags = w.tags := by
  unfold Entity.unrelateG
  simp only []
  repeat' split
  all_goals rfl

theorem unrelateG_eid_tags (g : Option World) (w : World) (eid : Nat)
    (r : String) (o : Nat) : (Entity.unrelateG g w eid r o).1.eid_tags = w.eid_tags := by
  unfold Entity.unrelateG
  simp only []
  repeat' split
  all_goals rfl

theorem create_TagWF (w : World) (h : TagWF w) : TagWF (w.create_entity).1 := by
  refine ⟨h.nodupTags, dkeys_dinsert_nodup _ _ h.nodupEidTags, h.nonempty, ?_⟩
  intro e2 ts2 hts2 t2 ht2
  have hts2x : dlookup e2 (dinsert w.next_id [] w.eid_tags) = some ts2 := hts2
  rw [dlookup_dinsert] at hts2x
  by_cases he : e2 = w.next_id
  · rw [if_pos he] at hts2x
    injection hts2x with hh
    rw [← hh] at ht2
    exact absurd ht2 (List.not_mem_nil t2)
  · rw [if_neg he] at hts2x
    exact h.consistent e2 ts2 hts2x t2 ht2

theorem tag_TagWF (w : World) (eid : Nat) (t : Tag) (h : TagWF w) :
    TagWF (Entity.tag w eid t).1 := by
  unfold Entity.tag
  cases hts : dlookup eid w.eid_tags with
  | none => exact h
  | some ts =>
    dsimp only
    by_cases hmem : t ∈ ts
    · rw [if_pos hmem]; exact h
    · rw [if_neg hmem]
      refine ⟨?_, ?_, ?_, ?_⟩
      · exact dkeys_dinsert_nodup _ _ (dget_snd_nodup _ _ h.nodupTags)
      · exact dkeys_dinsert_nodup _ _ h.nodupEidTags
      · intro t2 b2 hb2
        have hb2x : dlookup t2
            (dinsert t (sadd eid (dget [] t w.tags).1) (dget [] t w.tags).2) = some b2 := hb2
        rw [dlookup_dinsert] at hb2x
        by_cases h2 : t2 = t
        · rw [if_pos h2] at hb2x
          injection hb2x with hh
          rw [← hh]
          exact sadd_ne_nil eid _
        · rw [if_neg h2, dlookup_dget_snd_ne [] _ h2] at hb2x
          exact h.nonempty t2 b2 hb2x
      · intro e2 ts2 hts2 t2 ht2
        have hts2x : dlookup e2 (dinsert eid (sadd t ts) w.eid_tags) = some ts2 := hts2
        rw [dlookup_dinsert] at hts2x
        by_cases he : e2 = eid
        · rw [if_pos he] at hts2x
          subst he
          injection hts2x with hh
          rw [← hh, mem_sadd] at ht2
          rcases ht2 with ht2 | rfl
          · have hne : t2 ≠ t := fun he2 => hmem (he2 ▸ ht2)
            obtain ⟨b, hbl, hbm⟩ := h.consistent e2 ts hts t2 ht2
            refine ⟨b, ?_, hbm⟩
            show dlookup t2
              (dinsert t (sadd e2 (dget [] t w.tags).1) (dget [] t w.tags).2) = some b
            rw [dlookup_dinsert, if_neg hne, dlookup_dget_snd_ne [] _ hne]
            exact hbl
          · refine ⟨sadd e2 (dget [] t2 w.tags).1, ?_, ?_⟩
            · show dlookup t2
                (dinsert t2 (sadd e2 (dget [] t2 w.tags).1) (dget [] t2 w.tags).2) = some _
              rw [dlookup_dinsert, if_pos rfl]
            · rw [mem_sadd]
              exact Or.inr rfl
        · rw [if_neg he] at hts2x
          obtain ⟨b, hbl, hbm⟩ := h.consistent e2 ts2 hts2x t2 ht2
          by_cases h2 : t2 = t
          · subst h2
            refine ⟨sadd eid (dget [] t2 w.tags).1, ?_, ?_⟩
            · show dlookup t2
                (dinsert t2 (sadd eid (dget [] t2 w.tags).1) (dget [] t2 w.tags).2) = some _
              rw [dlookup_dinsert, if_pos rfl]
            · rw [dget_fst, hbl, mem_sadd]
              exact Or.inl hbm
          · refine ⟨b, ?_, hbm⟩
            show dlookup t2
              (dinsert t (sadd eid (dget [] t w.tags).1) (dget [] t w.tags).2) = some b
            rw [dlookup_dinsert, if_neg h2, dlookup_dget_snd_ne [] _ h2]
            exact hbl

theorem untag_TagWF (w : World) (eid : Nat) (t : Tag) (h : TagWF w) :
    TagWF (Entity.untag w eid t).1 := by
  unfold Entity.untag
  cases hts : dlookup eid w.eid_tags with
  | none => exact h
  | some ts =>
    dsimp only
    by_cases hmem : t ∈ ts
    · rw [if_pos hmem]
      obtain ⟨b, hb, hmb⟩ := h.consistent eid ts hts t hmem
      simp only [dget, hb]
      rw [if_pos hmb]
      by_cases hb1 : List.filter (fun x => decide (x ≠ eid)) b = []
      · rw [if_pos hb1]
        refine ⟨?_, ?_, ?_, ?_⟩
        · exact dkeys_ddelete_nodup _ (dkeys_dinsert_nodup _ _ h.nodupTags)
        · exact dkeys_dinsert_nodup _ _ h.nodupEidTags
        · intro t2 b2 hb2
          have hb2x : dlookup t2 (ddelete t
              (dinsert t (List.filter (fun x => decide (x ≠ eid)) b) w.tags)) = some b2 := hb2
          by_cases h2 : t2 = t
          · subst h2
            rw [dlookup_ddelete_self (dkeys_dinsert_nodup _ _ h.nodupTags)] at hb2x
            exact absurd hb2x (by simp)
          · rw [dlookup_ddelete_ne _ h2, dlookup_dinsert, if_neg h2] at hb2x
            exact h.nonempty t2 b2 hb2x
        · intro e2 ts2 hts2 t2 ht2
          have hts2x : dlookup e2 (dinsert eid
              (List.filter (fun x => decide (x ≠ t)) ts) w.eid_tags) = some ts2 := hts2
          rw [dlookup_dinsert] at hts2x
          by_cases he : e2 = eid
          · subst he
            rw [if_pos rfl] at hts2x
            injection hts2x with hh
            rw [← hh, List.mem_filter] at ht2
            obtain ⟨ht2a, ht2b⟩ := ht2
            have hne : t2 ≠ t := by simpa using ht2b
            obtain ⟨b3, hbl, hbm⟩ := h.consistent e2 ts hts t2 ht2a
            refine ⟨b3, ?_, hbm⟩
            show dlookup t2 (ddelete t
              (dinsert t (List.filter (fun x => decide (x ≠ e2)) b) w.tags)) = some b3
            rw [dlookup_ddelete_ne _ hne, dlookup_dinsert, if_neg hne]
            exact hbl
          · rw [if_neg he] at hts2x
            obtain ⟨b3, hbl, hbm⟩ := h.consistent e2 ts2 hts2x t2 ht2
            by_cases h2 : t2 = t
            · subst h2
              rw [hb] at hbl
              injection hbl with hh
              exfalso
              have hmem2 : e2 ∈ List.filter (fun x => decide (x ≠ eid)) b := by
                rw [List.mem_filter]
                exact ⟨hh ▸ hbm, by simpa using he⟩
              rw [hb1] at hmem2
              exact absurd hmem2 (List.not_mem_nil e2)
            · refine ⟨b3, ?_, hbm⟩
              show dlookup t2 (ddelete t
                (dinsert t (List.filter (fun x => decide (x ≠ eid)) b) w.tags)) = some b3
              rw [dlookup_ddelete_ne _ h2, dlookup_dinsert, if_neg h2]
              exact hbl
      · rw [if_neg hb1]
        refine ⟨?_, ?_, ?_, ?_⟩
        · exact dkeys_dinsert_nodup _ _ h.nodupTags
        · exact dkeys_dinsert_nodup _ _ h.nodupEidTags
        · intro t2 b2 hb2
          have hb2x : dlookup t2
              (dinsert t (List.filter (fun x => decide (x ≠ eid)) b) w.tags) = some b2 := hb2
          rw [dlookup_dinsert] at hb2x
          by_cases h2 : t2 = t
          · rw [if_pos h2] at hb2x
            injection hb2x with hh
            rw [← hh]
            exact hb1
          · rw [if_neg h2] at hb2x
            exact h.nonempty t2 b2 hb2x
        · intro e2 ts2 hts2 t2 ht2
          have hts2x : dlookup e2 (dinsert eid
              (List.filter (fun x => decide (x ≠ t)) ts) w.eid_tags) = some ts2 := hts2
          rw [dlookup_dinsert] at hts2x
          by_cases he : e2 = eid
          · subst he
            rw [if_pos rfl] at hts2x
            injection hts2x with hh
            rw [← hh, List.mem_filter] at ht2
            obtain ⟨ht2a, ht2b⟩ := ht2
            have hne : t2 ≠ t := by simpa using ht2b
            obtain ⟨b3, hbl, hbm⟩ := h.consistent e2 ts hts t2 ht2a
            refine ⟨b3, ?_, hbm⟩
            show dlookup t2
              (dinsert t (List.filter (fun x => decide (x ≠ e2)) b) w.tags) = some b3
            rw [dlookup_dinsert, if_neg hne]
            exact hbl
          · rw [if_neg he] at hts2x
            obtain ⟨b3, hbl, hbm⟩ := h.consistent e2 ts2 hts2x t2 ht2
            by_cases h2 : t2 = t
            · subst h2
              rw [hb] at hbl
              injection hbl with hh
              refine ⟨List.filter (fun x => decide (x ≠ eid)) b, ?_, ?_⟩
              · show dlookup t2
                  (dinsert t2 (List.filter (fun x => decide (x ≠ eid)) b) w.tags) = some _
                rw [dlookup_dinsert, if_pos rfl]
              · rw [List.mem_filter]
                exact ⟨hh ▸ hbm, by simpa using he⟩
            · refine ⟨b3, ?_, hbm⟩
              show dlookup t2
                (dinsert t (List.filter (fun x => decide (x ≠ eid)) b) w.tags) = some b3
              rw [dlookup_dinsert, if_neg h2]
              exact hbl
    · rw [if_neg hmem]
      exact h

theorem entities_update_TagWF (w : World) (l : List Nat) (h : TagWF w) :
    TagWF { w with entities := l } :=
  @TagWF_congr w { w with entities := l } rfl rfl h

theorem ddel_TagWF (w : World) (eid : Nat) (h : TagWF w) :
    TagWF { w with eid_comps := ddelete eid w.eid_comps,
                   eid_tags := ddelete eid w.eid_tags,
                   eid_rels := ddelete eid w.eid_rels } := by
  refine ⟨h.nodupTags, dkeys_ddelete_nodup _ h.nodupEidTags, h.nonempty, ?_⟩
  intro e2 ts2 hts2 t2 ht2
  have hts2x : dlookup e2 (ddelete eid w.eid_tags) = some ts2 := hts2
  by_cases he : e2 = eid
  · subst he
    rw [dlookup_ddelete_self h.nodupEidTags] at hts2x
    exact absurd hts2x (by simp)
  · rw [dlookup_ddelete_ne _ he] at hts2x
    exact h.consistent e2 ts2 hts2x t2 ht2

theorem delete_TagWF (w : World) (eid : Nat) (h : TagWF w) :
    TagWF (World.delete_entity w eid).1 := by
  unfold World.delete_entity
  exact delete_entityG_pres moduleWorld w eid TagWF h
    (fun w1 c hw => TagWF_congr (delitem_tags w1 eid c) (delitem_eid_tags w1 eid c) hw)
    (fun w1 t hw => untag_TagWF w1 eid t hw)
    (fun w1 e2 r o hw =>
      TagWF_congr (unrelateG_tags moduleWorld w1 e2 r o) (unrelateG_eid_tags moduleWorld w1 e2 r o) hw)
    (fun w1 hw => ddel_TagWF w1 eid hw)
    (fun w1 hw => entities_update_TagWF w1 (w1.entities.filter (· ≠ eid)) hw)

theorem applyOp_TagWF (w : World) (op : Op) (h : TagWF w) :
    TagWF (applyOp w op) := by
  cases op with
  | create => exact create_TagWF w h
  | tagOp eid t => exact tag_TagWF w eid t h
  | untagOp eid t => exact untag_TagWF w eid t h
  | setitemOp eid c v =>
    exact TagWF_congr (setitem_tags w eid c v) (setitem_eid_tags w eid c v) h
  | delitemOp eid c =>
    exact TagWF_congr (delitem_tags w eid c) (delitem_eid_tags w eid c) h
  | relateOp eid r o =>
    exact TagWF_congr (relateG_tags moduleWorld w eid r o)
      (relateG_eid_tags moduleWorld w eid r o) h
  | unrelateOp eid r o =>
    exact TagWF_congr (unrelateG_tags moduleWorld w eid r o)
      (unrelateG_eid_tags moduleWorld w eid r o) h
  | deleteOp eid => exact delete_TagWF w eid h

theorem TagWF_empty : TagWF World.empty := by
  refine ⟨by simp [World.empty, dkeys], by simp [World.empty, dkeys], ?_, ?_⟩
  · intro t b hb
    simp [World.empty, dlookup] at hb
  · intro e ts hts
    simp [World.empty, dlookup] at hts

theorem applyOps_TagWF (ops : List Op) :
    ∀ w : World, TagWF w → TagWF (applyOps w ops) := by
  induction ops with
  | nil => intro w hw; exact hw
  | cons op rest ih => intro w hw; exact ih (applyOp w op) (applyOp_TagWF w op hw)

/-- C9 counterexample: the claim quantifies over all sequences of public
operations including queries, but a single query for an absent tag on a
fresh registry leaves the empty bucket `tags["x"] = set()` behind (the
defaultdict lookup `self.tags[tag]` inserts it), while the query itself
returns the empty set without raising. -/
theorem C9_counterexample_query_leaves_empty_bucket :
    dlookup "x" ((World.empty.query [] ["x"] []).1).tags = some [] ∧
    (World.empty.query [] ["x"] []).2 = Except.ok [] :=
  ⟨by decide, rfl⟩

/-- C9 amended: after every sequence of mutating public operations
(create_entity, component set/delete, tag, untag, relate, unrelate,
delete_entity) on a registry constructed empty, every tag key present in
the tags table maps to a non-empty id set; queries are excluded because a
query for an absent tag inserts an empty bucket. -/
theorem C9_no_empty_tag_buckets_under_mutations (ops : List Op) (t : Tag)
    (b : List Nat) (hb : dlookup t (applyOps World.empty ops).tags = some b) :
    b ≠ [] :=
  (applyOps_TagWF ops World.empty TagWF_empty).nonempty t b hb

theorem C9_no_empty_tag_buckets_under_mutations_witness :
    dlookup "a" (applyOps World.empty [Op.create, Op.tagOp 0 "a"]).tags = some [0] ∧
    ([0] : List Nat) ≠ [] :=
  ⟨by decide,
   C9_no_empty_tag_buckets_under_mutations [Op.create, Op.tagOp 0 "a"] "a" [0] (by decide)⟩

/-- The query conjunction example of the spec: entities 1, 2, 3 where 1 and
2 hold component `(hp, int)` and 2 and 3 hold tag `enemy`. -/
def wEx : World :=
  { entities := [1, 2, 3], components := [(("hp", "int"), [(1, 10), (2, 20)])],
    tags := [("enemy", [2, 3])], relations := [],
    eid_comps := [(1, [("hp", "int")]), (2, [("hp", "int")]), (3, [])],
    eid_tags := [(1, []), (2, ["enemy"]), (3, ["enemy"])],
    eid_rels := [(1, []), (2, []), (3, [])], next_id := 4 }

theorem C1_query_conjunction_witness :
    ∃ S, (wEx.query [("hp", "int")] ["enemy"] []).2 = Except.ok S ∧
      ∀ x, x ∈ S ↔
        ((∀ c ∈ [(("hp", "int") : Comp)], x ∈ dkeys ((dlookup c wEx.components).getD [])) ∧
         (∀ t ∈ ["enemy"], x ∈ (dlookup t wEx.tags).getD []) ∧
         (∀ r ∈ ([] : List (String × Nat)),
            x ∈ (dlookup r.2 ((dlookup r.1 wEx.relations).getD [])).getD [])) :=
  C1_query_conjunction wEx [("hp", "int")] ["enemy"] [] (Or.inl (by decide))
